import Mathlib

/-!
Verification of the beancount accounting core against its specification.

The Python source of record is src/python/beancount/core/position.py; the
summarization engine (src/python/beancount/ops/summarize.py) is not part of
the provided sources, only its tests are, so those functions are modelled
from the specification text and are marked as such in their doc comments.

Decimal numbers (Python decimal.Decimal) are modelled as rational numbers,
which captures the exact decimal arithmetic of the source; Python dates
(datetime.date) are modelled as (year, month, day) triples for lot dates,
and as integer day indices for the directive stream where only ordering
and subtracting one day matter.
-/

namespace Beancount

/-- An Amount is a pair of a decimal number and a currency string
(beancount.core.amount, an external collaborator of position.py). -/
structure Amount where
  number : ℚ
  currency : String
deriving DecidableEq, Repr

/-- Multiplication of an amount by a number (beancount.core.amount.amount_mult):
the number is scaled, the currency kept. -/
def amount_mult (a : Amount) (n : ℚ) : Amount :=
  ⟨a.number * n, a.currency⟩

/-- The null amount (beancount.core.amount.NULL_AMOUNT): zero units of the
empty currency string. -/
def NULL_AMOUNT : Amount := ⟨0, ""⟩

/-- A calendar date, modelling Python datetime.date values. -/
structure Date where
  year : ℕ
  month : ℕ
  day : ℕ
deriving DecidableEq, Repr

/-- Gregorian leap-year test, as used by datetime.date. -/
def isLeapYear (y : ℕ) : Bool :=
  y % 4 == 0 && (y % 100 != 0 || y % 400 == 0)

/-- Number of days in a month, as used by datetime.date. -/
def daysInMonth (y m : ℕ) : ℕ :=
  if m = 2 then (if isLeapYear y then 29 else 28)
  else if m = 4 ∨ m = 6 ∨ m = 9 ∨ m = 11 then 30
  else 31

/-- Validity of (year, month, day) arguments for the datetime.date
constructor, which raises ValueError outside these bounds. -/
def validDate (y m d : ℕ) : Bool :=
  1 ≤ y && y ≤ 9999 && 1 ≤ m && m ≤ 12 && 1 ≤ d && d ≤ daysInMonth y m

/-- A Lot is a triple of currency, optional cost and optional acquisition
date (position.py, the Lot namedtuple). -/
structure Lot where
  currency : String
  cost : Option Amount
  lot_date : Option Date
deriving DecidableEq, Repr

/-- A Position is a number of units of a lot (position.py, class Position). -/
structure Position where
  lot : Lot
  number : ℚ
deriving DecidableEq, Repr

namespace Position

/-- Position.get_units: the amount of units of the lot currency,
irrespective of cost or lot date. -/
def get_units (p : Position) : Amount :=
  ⟨p.number, p.lot.currency⟩

/-- Position.get_cost: the lot cost times the number if a cost is present,
else the units amount. -/
def get_cost (p : Position) : Amount :=
  match p.lot.cost with
  | none => ⟨p.number, p.lot.currency⟩
  | some c => amount_mult c p.number

/-- Error signalled by Position.get_weight: the assertion that the price
currency differs from the lot currency failed. -/
inductive WeightError
  | priceCurrencyEqualsLot
deriving DecidableEq, Repr

/-- Position.get_weight: prefer the lot cost if present, else the given
price (whose currency must differ from the lot currency, an assertion in
the source), else the raw units. -/
def get_weight (p : Position) (price : Option Amount) : Except WeightError Amount :=
  match p.lot.cost with
  | some c => .ok (amount_mult c p.number)
  | none =>
    match price with
    | some pr =>
      if p.lot.currency = pr.currency then .error .priceCurrencyEqualsLot
      else .ok (amount_mult pr p.number)
    | none => .ok ⟨p.number, p.lot.currency⟩

/-- Position.cost: itself if the lot has no cost, else a new Position
with a costless lot of the cost currency and magnitude number times the
cost number. -/
def cost (p : Position) : Position :=
  match p.lot.cost with
  | none => p
  | some c => ⟨⟨c.currency, none, none⟩, p.number * c.number⟩

/-- Position.add mutates the position in place (self.number += number in
the source); it is modelled as a state transformer returning the updated
position. -/
def add (p : Position) (n : ℚ) : Position :=
  ⟨p.lot, p.number + n⟩

/-- Position.__copy__: a new Position with the same shared lot and a copy
of the number. -/
def copy (p : Position) : Position :=
  ⟨p.lot, p.number⟩

/-- Position.get_negative: a new Position with the number negated and the
same shared lot. -/
def get_negative (p : Position) : Position :=
  ⟨p.lot, -p.number⟩

/-- Position.is_negative_at_cost: the number is negative and the lot has a
cost or a date. -/
def is_negative_at_cost (p : Position) : Bool :=
  decide (p.number < 0) && (p.lot.cost.isSome || p.lot.lot_date.isSome)

/-- Position.__eq__: comparison against another Position or against None
(the absent value, modelled as the none case of the Option). -/
def posEq (p : Position) (other : Option Position) : Bool :=
  match other with
  | none => decide (p.number = 0)
  | some q => decide (p.number = q.number ∧ p.lot = q.lot)

end Position

/-- The fixed currency-priority table (position.py, CURRENCY_ORDER),
returning the rank of the eight known major currencies. -/
def CURRENCY_ORDER (c : String) : Option ℕ :=
  if c = "USD" then some 0
  else if c = "EUR" then some 1
  else if c = "JPY" then some 2
  else if c = "CAD" then some 3
  else if c = "GBP" then some 4
  else if c = "AUD" then some 5
  else if c = "NZD" then some 6
  else if c = "CHF" then some 7
  else none

/-- The number of entries of the currency table (position.py, NCURRENCIES). -/
def NCURRENCIES : ℕ := 8

/-- Position.sortkey: the currency rank (with fallback NCURRENCIES plus
the currency length for unknown currencies), the lot cost or the null
amount, and the number. -/
def sortkey (p : Position) : ℕ × Amount × ℚ :=
  ((CURRENCY_ORDER p.lot.currency).getD (NCURRENCIES + p.lot.currency.length),
   p.lot.cost.getD NULL_AMOUNT,
   p.number)

/-- Order on amounts as Python compares the (number, currency) namedtuple:
lexicographically, number first. -/
def AmountLt (a b : Amount) : Prop :=
  a.number < b.number ∨ (a.number = b.number ∧ a.currency < b.currency)

/-- Lexicographic order on sort keys, as Python compares the tuples
returned by Position.sortkey. -/
def SortKeyLt (k l : ℕ × Amount × ℚ) : Prop :=
  k.1 < l.1 ∨ (k.1 = l.1 ∧
    (AmountLt k.2.1 l.2.1 ∨ (k.2.1 = l.2.1 ∧ k.2.2 < l.2.2)))

/-- Position.__lt__: comparison of the sort keys. -/
def PosLt (p q : Position) : Prop :=
  SortKeyLt (sortkey p) (sortkey q)

/-! ## The compact position notation parser (Position.from_string)

The source matches the input against the regular expression
(with spaces written as character classes)
  backslash-s* (NUMBER_RE) backslash-s+ (CURRENCY_RE)
  (?: backslash-s+ open-brace ([^close-brace]*) close-brace )? backslash-s* $
and then splits the brace block on commas and slashes, matching each
stripped component against the compound cost, date, label and merge-marker
regular expressions in that order.

NUMBER_RE and CURRENCY_RE live in beancount.core.number and
beancount.core.amount, which are external collaborators; they are modelled
from the spec as a signed decimal literal with optional comma group
separators (at least one digit) and as an uppercase alphanumeric word
starting with a letter. -/

/-- Whitespace as matched by backslash-s in the source regular
expressions. -/
def isWs (c : Char) : Bool :=
  c = ' ' || c = '\t' || c = '\n' || c = '\r' || c = '\x0b' || c = '\x0c'

/-- Numeric value of a list of decimal digits. -/
def digitsVal (l : List Char) : ℕ :=
  l.foldl (fun a c => 10 * a + (c.toNat - '0'.toNat)) 0

/-- Modelled from the spec: the number token of the compact notation
(NUMBER_RE of beancount.core.number is not in the provided sources).
An optional sign, digits with optional comma group separators, and an
optional fractional part; at least one digit is required. Returns the
rational value and the rest of the input. -/
def parseNumberTok (cs : List Char) : Option (ℚ × List Char) :=
  let signed : ℚ × List Char :=
    match cs with
    | '+' :: r => (1, r)
    | '-' :: r => (-1, r)
    | _ => (1, cs)
  let sgn := signed.1
  let ip := (signed.2.span (fun c => c.isDigit || c = ',')).1
  let cs2 := (signed.2.span (fun c => c.isDigit || c = ',')).2
  let fp : List Char × List Char :=
    match cs2 with
    | '.' :: r => r.span Char.isDigit
    | _ => ([], cs2)
  let ipd := ip.filter Char.isDigit
  if ipd.length + fp.1.length = 0 then none
  else
    some (sgn * ((digitsVal ipd : ℚ) + (digitsVal fp.1 : ℚ) / (10 ^ fp.1.length : ℕ)), fp.2)

/-- Modelled from the spec: the currency token of the compact notation
(CURRENCY_RE of beancount.core.amount is not in the provided sources).
An uppercase letter followed by uppercase letters and digits. -/
def parseCurrencyTok (cs : List Char) : Option (String × List Char) :=
  match cs with
  | c :: r =>
    if c.isUpper then
      let sp := r.span (fun d => d.isUpper || d.isDigit)
      some (String.mk (c :: sp.1), sp.2)
    else none
  | [] => none

/-- The overall match of Position.from_string: leading whitespace, a
number, whitespace, a currency, an optional whitespace-preceded brace
block whose content may not contain a closing brace, trailing whitespace.
Returns the number, the currency and the block content if present. -/
def parseOuter (s : String) : Option (ℚ × String × Option (List Char)) :=
  match parseNumberTok (s.data.dropWhile isWs) with
  | none => none
  | some (n, r1) =>
    let ws1 := r1.span isWs
    if ws1.1.isEmpty then none
    else
      match parseCurrencyTok ws1.2 with
      | none => none
      | some (cur, r3) =>
        let ws2 := r3.span isWs
        match ws2.2 with
        | [] => some (n, cur, none)
        | '{' :: r5 =>
          if ws2.1.isEmpty then none
          else
            let blk := r5.span (fun c => c ≠ '}')
            match blk.2 with
            | '}' :: r7 => if (r7.dropWhile isWs).isEmpty then some (n, cur, some blk.1) else none
            | _ => none
        | _ => none

/-- Splitting of the cost block on commas and slashes, as the source does
with re.split. -/
def splitSeps (cs : List Char) : List (List Char) :=
  match cs with
  | [] => [[]]
  | c :: r =>
    if c = ',' ∨ c = '/' then [] :: splitSeps r
    else
      match splitSeps r with
      | [] => [[c]]
      | h :: t => (c :: h) :: t

/-- Stripping of surrounding whitespace from a cost component, as the
source does with str.strip. -/
def stripWs (cs : List Char) : List Char :=
  ((cs.dropWhile isWs).reverse.dropWhile isWs).reverse

/-- The stripped comma/slash-separated components of a cost block. -/
def splitComponents (cs : List Char) : List (List Char) :=
  (splitSeps cs).map stripWs

/-- The compound cost match of a cost component: a per-unit number,
an optional total number introduced by a hash sign, and the cost
currency at the end of the component. -/
def matchCompound (cs : List Char) : Option (ℚ × Option ℚ × String) :=
  match parseNumberTok cs with
  | none => none
  | some (per, r1) =>
    let ws1 := r1.span isWs
    match ws1.2 with
    | '#' :: r3 =>
      match parseNumberTok (r3.dropWhile isWs) with
      | none => none
      | some (tot, r4) =>
        let ws2 := r4.span isWs
        if ws2.1.isEmpty then none
        else
          match parseCurrencyTok ws2.2 with
          | some (ccur, []) => some (per, some tot, ccur)
          | _ => none
    | _ =>
      if ws1.1.isEmpty then none
      else
        match parseCurrencyTok ws1.2 with
        | some (ccur, []) => some (per, none, ccur)
        | _ => none

/-- The date match of a cost component: four digits, a dash or slash, two
digits, a dash or slash, two digits, end of component. -/
def matchDateForm (cs : List Char) : Option (ℕ × ℕ × ℕ) :=
  match cs with
  | [a, b, c, d, s1, e, f, s2, g, h] =>
    if (a.isDigit && b.isDigit && c.isDigit && d.isDigit &&
        e.isDigit && f.isDigit && g.isDigit && h.isDigit) &&
       (s1 = '-' || s1 = '/') && (s2 = '-' || s2 = '/') then
      some (digitsVal [a, b, c, d], digitsVal [e, f], digitsVal [g, h])
    else none
  | _ => none

/-- The quoted label match of a cost component: a double quote, any run of
characters other than a double quote, a closing double quote at the end. -/
def matchLabel (cs : List Char) : Bool :=
  match cs with
  | '\"' :: r =>
    match r.reverse with
    | '\"' :: mid => mid.all (fun c => c ≠ '\"')
    | _ => false
  | _ => false

/-- The errors of Position.from_string: the two explicit ValueError raises
of the source, the ValueError raised by the datetime.date constructor on
out-of-range values, and the DivisionByZero raised by the decimal division
of the total cost by a zero number of units. -/
inductive FromStringError
  | invalidString
  | invalidComponent
  | invalidDate
  | divisionByZero
deriving DecidableEq, Repr

/-- The cost state accumulated while scanning the components of a cost
block: the optional cost amount and the optional lot date. -/
structure CostState where
  cost : Option Amount
  lot_date : Option Date
deriving DecidableEq, Repr

/-- Processing of one stripped cost component, in the matching order of
the source: compound cost (with the per-unit recomputation
(number * per + total) / number when a nonzero total is present, which in
the source divides by the unit number without a guard), date (checked by
the datetime.date constructor), label (warned and dropped), merge marker
(warned and dropped), else the invalid-component ValueError. -/
def processComponent (number : ℚ) (st : CostState) (expr : List Char) :
    Except FromStringError CostState :=
  match matchCompound expr with
  | some (per, totOpt, ccur) =>
    let tot := totOpt.getD 0
    if tot ≠ 0 then
      if number = 0 then .error .divisionByZero
      else .ok { st with cost := some ⟨(number * per + tot) / number, ccur⟩ }
    else .ok { st with cost := some ⟨per, ccur⟩ }
  | none =>
    match matchDateForm expr with
    | some (y, m, d) =>
      if validDate y m d then .ok { st with lot_date := some ⟨y, m, d⟩ }
      else .error .invalidDate
    | none =>
      if matchLabel expr then .ok st
      else if expr = ['*'] then .ok st
      else .error .invalidComponent

/-- The component loop of Position.from_string: the components are
processed in order, and the first raised error aborts the loop. -/
def processComponents (number : ℚ) (st : CostState) :
    List (List Char) → Except FromStringError CostState
  | [] => .ok st
  | e :: es =>
    match processComponent number st e with
    | .error err => .error err
    | .ok st2 => processComponents number st2 es

/-- Position.from_string: match the overall pattern, then run the
stripped cost components (if the block content is present and nonempty,
as the source tests the truthiness of the matched group) through the
component loop, and build the Position. -/
def from_string (s : String) : Except FromStringError Position :=
  match parseOuter s with
  | none => .error .invalidString
  | some (n, cur, blockOpt) =>
    match blockOpt with
    | none => .ok ⟨⟨cur, none, none⟩, n⟩
    | some content =>
      if content.isEmpty then .ok ⟨⟨cur, none, none⟩, n⟩
      else
        match processComponents n ⟨none, none⟩ (splitComponents content) with
        | .error e => .error e
        | .ok st => .ok ⟨⟨cur, st.cost, st.lot_date⟩, n⟩

/-- A result of from_string counts as a format error when it corresponds
to a Python ValueError: the overall mismatch, an invalid cost component,
or an invalid calendar date; the division error is a distinct arithmetic
error. -/
def isFormatError (r : Except FromStringError Position) : Bool :=
  match r with
  | .error .invalidString => true
  | .error .invalidComponent => true
  | .error .invalidDate => true
  | .error .divisionByZero => false
  | .ok _ => false

/-! ## The summarization engine

Modelled from the spec: beancount/ops/summarize.py is not among the
provided sources (only its tests are), so the directive stream, the
balance folding and the summarize/clamp pipeline below follow the
specification text of sections 4.3 and 4.5 to 4.9. Directive dates are
modelled as integer day indices, where the day before a date d is d - 1. -/

/-- An account name. -/
abbrev Account := String

/-- A posting of a transaction: an account, a position and an optional
explicit price. Modelled from the spec (section 3, directive stream). -/
structure Posting where
  account : Account
  position : Position
  price : Option Amount
deriving DecidableEq, Repr

/-- A directive of the stream: a transaction with flag, narration and
postings, or any other dated entry (open, close, price point, balance
assertion), which carries no postings. Modelled from the spec (section 3,
directive stream). -/
inductive Directive
  | txn (date : Int) (flag : String) (narration : String) (postings : List Posting)
  | other (date : Int)
deriving DecidableEq, Repr

/-- The date of a directive. -/
def Directive.date : Directive → Int
  | .txn d _ _ _ => d
  | .other d => d

/-- The postings of a directive (empty for non-transactions). -/
def Directive.postings : Directive → List Posting
  | .txn _ _ _ ps => ps
  | .other _ => []

/-- An Inventory is a collection of positions, at most one per distinct
lot. Modelled from the spec (section 4.2). -/
abbrev Inventory := List Position

/-- Inventory.add: increment the number of the position with an identical
lot if one exists, else insert a new position. Modelled from the spec
(section 4.2). -/
def invAdd (inv : Inventory) (pos : Position) : Inventory :=
  if inv.any (fun q => q.lot = pos.lot) then
    inv.map (fun q => if q.lot = pos.lot then Position.add q pos.number else q)
  else inv ++ [pos]

/-- Inventory.is_empty: every contained position has a zero number.
Modelled from the spec (section 4.2). -/
def invIsEmpty (inv : Inventory) : Bool :=
  inv.all (fun p => p.number == 0)

/-- Sum of the numbers of the amounts of a given currency in a list. -/
def sumCur (l : List Amount) (c : String) : ℚ :=
  ((l.filter (fun a => a.currency = c)).map Amount.number).sum

/-- The distinct currencies appearing in a list of amounts. -/
def currenciesOf (l : List Amount) : List String :=
  (l.map Amount.currency).dedup

/-- Consolidation of a list of amounts into one amount per currency with a
nonzero sum, as an inventory of costless positions does when amounts of a
like currency are merged. Modelled from the spec (sections 4.2 and 4.9). -/
def consolidateAmounts (l : List Amount) : List Amount :=
  (currenciesOf l).filterMap
    (fun c => if sumCur l c = 0 then none else some ⟨sumCur l c, c⟩)

/-- A list of amounts balances to an exactly empty balance when the sum of
every currency present is zero. -/
def balEmpty (l : List Amount) : Bool :=
  (currenciesOf l).all (fun c => sumCur l c == 0)

/-- The at-cost amount of a position: its cost projection taken as units.
Modelled from the spec (section 4.1, at_cost), using Position.cost of the
source. -/
def atCostAmount (p : Position) : Amount :=
  Position.get_units (Position.cost p)

/-- The at-cost amounts contributed by all postings of a list of
directives, as complete.compute_entries_balance followed by the cost
projection consolidates them. Modelled from the spec (sections 4.2
and 4.9). -/
def atCostAmounts (entries : List Directive) : List Amount :=
  (entries.flatMap Directive.postings).map (fun p => atCostAmount p.position)

/-- The at-cost value of an inventory as a fresh inventory of costless
positions, one per currency with a nonzero total. Modelled from the spec
(section 4.2, get_cost). -/
def invAtCost (inv : Inventory) : Inventory :=
  (consolidateAmounts (inv.map atCostAmount)).map
    (fun a => ⟨⟨a.currency, none, none⟩, a.number⟩)

/-- Insertion of an account entry into a by-name sorted association list. -/
def insertByName (x : Account × Inventory) :
    List (Account × Inventory) → List (Account × Inventory)
  | [] => [x]
  | y :: ys => if x.1 ≤ y.1 then x :: y :: ys else y :: insertByName x ys

/-- Sorting of an account-to-inventory mapping by account name. -/
def sortByName (l : List (Account × Inventory)) : List (Account × Inventory) :=
  l.foldr insertByName []

/-- Application of one posting to a by-account balance mapping, creating
the inventory on first touch. Modelled from the spec (section 4.3). -/
def applyPosting (bal : List (Account × Inventory)) (p : Posting) :
    List (Account × Inventory) :=
  if bal.any (fun e => e.1 = p.account) then
    bal.map (fun e => if e.1 = p.account then (e.1, invAdd e.2 p.position) else e)
  else bal ++ [(p.account, [p.position])]

/-- balance_by_account, modelled from the spec (section 4.3): fold the
postings of the transactions dated strictly before the cutoff (or of all
transactions when the cutoff is absent) into per-account inventories; the
split index is the position of the first directive dated at or after the
cutoff, or the stream length when there is none. -/
def balance_by_account (directives : List Directive) (cutoff : Option Int) :
    List (Account × Inventory) × ℕ :=
  let considered := directives.filter
    (fun e => match cutoff with
      | some d => decide (e.date < d)
      | none => true)
  let bal := (considered.flatMap Directive.postings).foldl applyPosting []
  let idx := match cutoff with
    | some d =>
      match directives.findIdx? (fun e => decide (d ≤ e.date)) with
      | some i => i
      | none => directives.length
    | none => directives.length
  (bal, idx)

/-- truncate, modelled from the spec (section 4.5): the prefix of the
entries dated strictly before the end date. -/
def truncate (directives : List Directive) (end_date : Int) : List Directive :=
  directives.takeWhile (fun e => decide (e.date < end_date))

/-- One opening-balance transaction, modelled from the spec (section 4.7):
a posting per position of the account's inventory (as-is when forward,
negated otherwise) and offsetting postings to the target account for the
negated at-cost total (sign flipped to match forward). -/
def balanceEntry (date : Int) (target : Account) (forward : Bool) (flag : String)
    (narration : String) (acct : Account) (inv : Inventory) : Directive :=
  .txn date flag narration
    ((inv.map (fun p => ⟨acct, if forward then p else Position.get_negative p, none⟩)) ++
     ((invAtCost inv).map
       (fun p => ⟨target, if forward then Position.get_negative p else p, none⟩)))

/-- create_entries_from_balances, modelled from the spec (section 4.7):
one transaction per account with a non-empty inventory, accounts visited
in sorted-by-name order, dated and flagged as given, with a narration
built from the account name. -/
def create_entries_from_balances (balances : List (Account × Inventory))
    (date : Int) (target : Account) (forward : Bool) (flag : String)
    (narrationFor : Account → String) : List Directive :=
  ((sortByName balances).filter (fun e => !invIsEmpty e.2)).map
    (fun e => balanceEntry date target forward flag (narrationFor e.1) e.1 e.2)

/-- The date of the chronologically last directive of a stream, or zero
for an empty stream (the spec leaves the empty stream to the no-op case). -/
def lastDate (directives : List Directive) : Int :=
  match directives.getLast? with
  | some e => e.date
  | none => 0

/-- One transfer transaction, modelled from the spec (section 4.6): a
posting per lot with the negated inventory for the source account,
preserving cost, and offsetting postings to the transfer account for the
inventory's total at-cost value. -/
def transferEntry (date : Int) (transfer : Account) (acct : Account)
    (inv : Inventory) : Directive :=
  .txn date "T" (String.append (String.append "Transfer balance for " acct)
      " (Transfer balance)")
    ((inv.map (fun p => ⟨acct, Position.get_negative p, none⟩)) ++
     ((invAtCost inv).map (fun p => ⟨transfer, p, none⟩)))

/-- transfer_balances, modelled from the spec (section 4.6): compute the
balances before the given date of the accounts satisfying the predicate,
build one transfer transaction per account with a non-empty inventory
(dated the day before the given date, or on the last directive's date when
no date is given), and insert them immediately before the first retained
directive dated at or after the computed date. -/
def transfer_balances (directives : List Directive) (at_date : Option Int)
    (pred : Account → Bool) (transfer : Account) : List Directive :=
  let balances := (balance_by_account directives at_date).1.filter
    (fun e => pred e.1 && !invIsEmpty e.2)
  if balances.isEmpty then directives
  else
    let txnDate := match at_date with
      | some d => d - 1
      | none => lastDate directives
    let entries := (sortByName balances).map (fun e => transferEntry txnDate transfer e.1 e.2)
    (directives.takeWhile (fun e => decide (e.date < txnDate))) ++ entries ++
      (directives.dropWhile (fun e => decide (e.date < txnDate)))

/-- summarize, modelled from the spec (section 4.8): balances of every
account as of the cutoff replace the head of the stream with opening
transactions dated the day before the cutoff, flagged with the summarize
marker, followed by the unchanged tail of directives dated at or after the
cutoff; the split index is the count of synthetic transactions. -/
def summarize (directives : List Directive) (cutoff : Int)
    (opening : Account) : List Directive × ℕ :=
  let res := balance_by_account directives (some cutoff)
  let openings := create_entries_from_balances res.1 (cutoff - 1) opening true "S"
    (fun a => String.append (String.append "Opening balance for " a) " (Summarization)")
  (openings ++ directives.drop res.2, openings.length)

/-- conversions, modelled from the spec (section 4.9): the accumulated
at-cost imbalance of the entries dated strictly before the cutoff (or of
the whole stream without a cutoff); when it is non-empty, exactly one
synthetic transaction is appended with one posting per involved currency,
carrying the negated imbalance at an explicit zero price in the null
currency, dated the day before the cutoff (or on the last directive's
date). -/
def conversions (directives : List Directive) (acct : Account)
    (null_currency : String) (cutoff : Option Int) : List Directive :=
  let imbalance := consolidateAmounts (atCostAmounts (directives.filter
    (fun e => match cutoff with
      | some d => decide (e.date < d)
      | none => true)))
  if imbalance.isEmpty then directives
  else
    let date := match cutoff with
      | some d => d - 1
      | none => lastDate directives
    directives ++ [.txn date "C" "Conversion"
      (imbalance.map (fun a =>
        ⟨acct, ⟨⟨a.currency, none, none⟩, -a.number⟩, some ⟨0, null_currency⟩⟩))]

/-- The account-type configuration: the name prefixes of the five account
categories. Modelled from the spec (section 6). -/
structure AccountTypes where
  assets : String
  liabilities : String
  equity : String
  income : String
  expenses : String
deriving DecidableEq, Repr

/-- The income-or-expense account predicate used by clamp and cap.
Modelled from the spec (sections 4.6 and 4.8). -/
def isIncomeExpense (types : AccountTypes) (a : Account) : Bool :=
  a.startsWith types.income || a.startsWith types.expenses

/-- A directive stream is ordered by date (the input contract of the
summarization engine, spec section 6). -/
def sortedByDate (xs : List Directive) : Prop :=
  List.Pairwise (fun a b => a.date ≤ b.date) xs

/-- clamp, modelled from the spec (section 4.8): transfer the
income-and-expense balances accrued before the begin date into the
earnings account, summarize the remaining balances before the begin date
into the opening account, truncate at the end date, and append a
conversion-balancing transaction for the window. -/
def clamp (directives : List Directive) (begin_date end_date : Int)
    (types : AccountTypes) (conversion_currency : String)
    (earnings opening conv_account : Account) : List Directive × ℕ :=
  let d1 := transfer_balances directives (some begin_date)
    (isIncomeExpense types) earnings
  let res := summarize d1 begin_date opening
  let d3 := truncate res.1 end_date
  (conversions d3 conv_account conversion_currency (some end_date), res.2)

/-! ## Spec-side predicates for the error characterization of from_string -/

/-- The recognized forms of a cost-block component as the spec enumerates
them: a cost spec, a date token, a quoted label, or the merge marker. -/
def recognizedForm (expr : List Char) : Bool :=
  (matchCompound expr).isSome || (matchDateForm expr).isSome ||
    matchLabel expr || expr == ['*']

/-- The spec characterization of when from_string raises a format error,
taken literally: the overall pattern does not match, or some component of
the cost block matches none of the recognized forms. -/
def c5SpecOk (s : String) : Bool :=
  match parseOuter s with
  | none => false
  | some (_, _, none) => true
  | some (_, _, some content) =>
    if content.isEmpty then true
    else (splitComponents content).all recognizedForm

/-- The kind of failure a cost component can trigger: a format error
(ValueError) or the division-by-zero arithmetic error. -/
inductive IssueKind
  | fmt
  | arith
deriving DecidableEq, Repr

/-- The issue a single cost component triggers for a given unit number:
an arithmetic issue for a cost spec with a nonzero total when the unit
number is zero, a format issue for a syntactic date with invalid calendar
values or for a component matching none of the recognized forms. -/
def componentIssue (n : ℚ) (expr : List Char) : Option IssueKind :=
  match matchCompound expr with
  | some (_, totOpt, _) =>
    if totOpt.getD 0 ≠ 0 ∧ n = 0 then some .arith else none
  | none =>
    match matchDateForm expr with
    | some (y, m, d) => if validDate y m d then none else some .fmt
    | none =>
      if matchLabel expr || expr == ['*'] then none else some .fmt

/-- The amended characterization of when from_string raises a format
error: the overall pattern does not match, or the first issue among the
cost components (scanned in order) is a format issue rather than the
arithmetic one. -/
def c5AmendedFormatError (s : String) : Bool :=
  match parseOuter s with
  | none => true
  | some (n, _, blockOpt) =>
    match blockOpt with
    | none => false
    | some content =>
      if content.isEmpty then false
      else ((splitComponents content).findSome? (componentIssue n)) == some .fmt

/-- Classification of a from_string intermediate result by the kind of
Python exception it corresponds to: none for success, the arithmetic kind
for the division error, the format kind for the ValueErrors. -/
def errClass {α : Type} : Except FromStringError α → Option IssueKind
  | .ok _ => none
  | .error .divisionByZero => some .arith
  | .error .invalidString => some .fmt
  | .error .invalidComponent => some .fmt
  | .error .invalidDate => some .fmt

/-! ## Theorems -/

/-- C2: get_weight returns number times the lot cost when a cost is
present; otherwise, with a non-null price it signals an error when the
price currency equals the lot currency and returns number times the price
when they differ; otherwise it returns the raw units amount. -/
theorem C2_get_weight_cases (p : Position) (price : Option Amount) :
    (∀ c, p.lot.cost = some c →
      Position.get_weight p price = .ok (amount_mult c p.number)) ∧
    (p.lot.cost = none → ∀ pr, price = some pr →
      (pr.currency = p.lot.currency →
        Position.get_weight p price = .error .priceCurrencyEqualsLot) ∧
      (pr.currency ≠ p.lot.currency →
        Position.get_weight p price = .ok (amount_mult pr p.number))) ∧
    (p.lot.cost = none → price = none →
      Position.get_weight p price = .ok ⟨p.number, p.lot.currency⟩) := by
  refine ⟨fun c hc => ?_, fun hc pr hpr => ⟨fun he => ?_, fun hne => ?_⟩,
    fun hc hpr => ?_⟩
  · simp [Position.get_weight, hc]
  · simp [Position.get_weight, hc, hpr, he.symm]
  · simp [Position.get_weight, hc, hpr]
    exact fun h => hne h.symm
  · simp [Position.get_weight, hc, hpr]

/-- C2 witness: a costless EUR position weighted at a USD price. -/
theorem C2_witness :
    Position.get_weight ⟨⟨"EUR", none, none⟩, 3⟩ (some ⟨2, "USD"⟩) =
      .ok (amount_mult ⟨2, "USD"⟩ 3) :=
  ((C2_get_weight_cases ⟨⟨"EUR", none, none⟩, 3⟩ (some ⟨2, "USD"⟩)).2.1
    rfl ⟨2, "USD"⟩ rfl).2 (by decide)

/-- C3 counterexample: Position.add updates the position in place
(self.number += number in the source), so the claim that every operation,
including the addition of units, leaves the fields of the position
unchanged is refuted at a concrete position. -/
theorem C3_counterexample :
    Position.add ⟨⟨"USD", none, none⟩, 5⟩ 2 ≠ ⟨⟨"USD", none, none⟩, 5⟩ := by
  with_unfolding_all decide

/-- C3 amended: addition of units is the one in-place update among the
listed operations; it changes only the number, by exactly the added
amount, and shares the lot. The other listed operations are pure: copying
returns an equal position sharing the lot, negation returns a new position
with the same lot and a negated number, and the at-cost projection returns
the position itself when the lot has no cost. -/
theorem C3_frame_amended (p : Position) (n : ℚ) :
    (Position.add p n).lot = p.lot ∧
    (Position.add p n).number = p.number + n ∧
    Position.copy p = p ∧
    (Position.get_negative p).lot = p.lot ∧
    (Position.get_negative p).number = -p.number ∧
    (p.lot.cost = none → Position.cost p = p) := by
  refine ⟨rfl, rfl, rfl, rfl, rfl, fun h => ?_⟩
  simp [Position.cost, h]

/-- C3 witness: the amended frame conditions at a concrete position. -/
theorem C3_witness :
    Position.cost ⟨⟨"USD", none, none⟩, 5⟩ = ⟨⟨"USD", none, none⟩, 5⟩ :=
  (C3_frame_amended ⟨⟨"USD", none, none⟩, 5⟩ 0).2.2.2.2.2 rfl

/-- C6: two positions are equal exactly when their numbers and lots match,
and a position compares equal to the absent value exactly when its number
is zero. -/
theorem C6_equality (p q : Position) :
    (Position.posEq p (some q) = true ↔ p.number = q.number ∧ p.lot = q.lot) ∧
    (Position.posEq p none = true ↔ p.number = 0) := by
  constructor <;> simp [Position.posEq]

/-- C6 witness: a zero position compares equal to the absent value. -/
theorem C6_witness :
    Position.posEq ⟨⟨"USD", none, none⟩, 0⟩ none = true :=
  (C6_equality ⟨⟨"USD", none, none⟩, 0⟩ ⟨⟨"USD", none, none⟩, 0⟩).2.mpr rfl

/-- Every rank in the currency-priority table is below NCURRENCIES. -/
theorem currency_order_lt (c : String) (k : ℕ) (h : CURRENCY_ORDER c = some k) :
    k < NCURRENCIES := by
  unfold CURRENCY_ORDER at h
  split_ifs at h <;> simp_all [NCURRENCIES] <;> omega

/-- C7: a position whose lot currency is in the priority table sorts
strictly before one whose lot currency is not, and among positions with
unknown currencies a strictly shorter currency string sorts strictly
first, regardless of cost and number. -/
theorem C7_sortkey_order (p q : Position) :
    ((CURRENCY_ORDER p.lot.currency).isSome = true →
      (CURRENCY_ORDER q.lot.currency).isNone = true → PosLt p q) ∧
    ((CURRENCY_ORDER p.lot.currency).isNone = true →
      (CURRENCY_ORDER q.lot.currency).isNone = true →
      p.lot.currency.length < q.lot.currency.length → PosLt p q) := by
  constructor
  · intro hp hq
    obtain ⟨k, hk⟩ := Option.isSome_iff_exists.mp hp
    rw [Option.isNone_iff_eq_none] at hq
    left
    simp only [sortkey, hk, hq, Option.getD_some, Option.getD_none]
    exact lt_of_lt_of_le (currency_order_lt _ _ hk) (Nat.le_add_right _ _)
  · intro hp hq hlen
    rw [Option.isNone_iff_eq_none] at hp
    rw [Option.isNone_iff_eq_none] at hq
    left
    simp only [sortkey, hp, hq, Option.getD_none]
    omega

/-- C7 witness: a USD position sorts before a position in an unknown
currency, and a shorter unknown currency sorts before a longer one. -/
theorem C7_witness :
    PosLt ⟨⟨"USD", none, none⟩, 1⟩ ⟨⟨"HOOL", none, none⟩, 1⟩ ∧
    PosLt ⟨⟨"AB", none, none⟩, 7⟩ ⟨⟨"ABC", none, none⟩, 1⟩ :=
  ⟨(C7_sortkey_order ⟨⟨"USD", none, none⟩, 1⟩ ⟨⟨"HOOL", none, none⟩, 1⟩).1
      (by decide) (by decide),
   (C7_sortkey_order ⟨⟨"AB", none, none⟩, 7⟩ ⟨⟨"ABC", none, none⟩, 1⟩).2
      (by decide) (by decide) (by decide)⟩

/-- C8: negating a position twice yields a position equal (in the sense of
the equality of the source) to the original. -/
theorem C8_double_negation (p : Position) :
    Position.posEq (Position.get_negative (Position.get_negative p)) (some p)
      = true := by
  simp [Position.posEq, Position.get_negative]

/-- C10: a well-formed compact string with a zero unit number and a
total-cost component makes from_string fail with the division-by-zero
arithmetic error (the only result errClass maps to the arithmetic kind),
rather than return a Position or raise a format error. -/
theorem C10_zero_units_total_cost :
    from_string "0 HOOL \x7b2.00 # 100.00 USD\x7d" =
      .error FromStringError.divisionByZero ∧
    isFormatError (from_string "0 HOOL \x7b2.00 # 100.00 USD\x7d") = false := by
  constructor <;> with_unfolding_all rfl

/-- Taking a prefix by a predicate twice takes it once. -/
theorem takeWhile_self_idem {α : Type} (p : α → Bool) (l : List α) :
    (l.takeWhile p).takeWhile p = l.takeWhile p := by
  induction l with
  | nil => rfl
  | cons a l ih =>
    by_cases h : p a
    · simp [List.takeWhile_cons, h, ih]
    · simp [List.takeWhile_cons, h]

/-- On a date-ordered stream, the prefix of entries dated before the end
date contains exactly the entries dated before the end date. -/
theorem takeWhile_eq_filter_of_sorted (xs : List Directive) (d : Int)
    (h : sortedByDate xs) :
    xs.takeWhile (fun e => decide (e.date < d)) =
      xs.filter (fun e => decide (e.date < d)) := by
  induction xs with
  | nil => rfl
  | cons a l ih =>
    unfold sortedByDate at h
    rw [List.pairwise_cons] at h
    by_cases ha : a.date < d
    · simp only [List.takeWhile_cons, List.filter_cons, decide_eq_true ha, if_pos]
      rw [ih h.2]
    · have hda : decide (a.date < d) = false := decide_eq_false ha
      simp only [List.takeWhile_cons, List.filter_cons, hda, Bool.false_eq_true,
        if_neg, ite_false]
      symm
      rw [List.filter_eq_nil]
      intro b hb
      have := h.1 b hb
      simp only [decide_eq_true_eq]
      omega

/-- C9: on a date-ordered stream, truncate yields exactly the entries
dated strictly before the end date, as a prefix of the input preserving
order and entry kinds, and truncating twice equals truncating once. -/
theorem C9_truncate_filter_idem (xs : List Directive) (d : Int)
    (h : sortedByDate xs) :
    truncate xs d = xs.filter (fun e => decide (e.date < d)) ∧
    (∃ rest, truncate xs d ++ rest = xs) ∧
    truncate (truncate xs d) d = truncate xs d := by
  unfold truncate
  refine ⟨takeWhile_eq_filter_of_sorted xs d h,
    ⟨xs.dropWhile (fun e => decide (e.date < d)), ?_⟩,
    takeWhile_self_idem _ _⟩
  exact List.takeWhile_append_dropWhile _ _

/-- C9 witness: truncation of a concrete three-entry ordered stream. -/
theorem C9_witness :
    truncate [Directive.other 1, Directive.other 2, Directive.other 5] 3 =
      [Directive.other 1, Directive.other 2,
        Directive.other 5].filter (fun e => decide (e.date < 3)) ∧
    (∃ rest,
      truncate [Directive.other 1, Directive.other 2, Directive.other 5] 3 ++
        rest = [Directive.other 1, Directive.other 2, Directive.other 5]) ∧
    truncate
        (truncate [Directive.other 1, Directive.other 2, Directive.other 5] 3)
        3 =
      truncate [Directive.other 1, Directive.other 2, Directive.other 5] 3 :=
  C9_truncate_filter_idem
    [Directive.other 1, Directive.other 2, Directive.other 5] 3
    (by unfold sortedByDate; simp [Directive.date])

/-- Summing a currency distributes over list append. -/
theorem sumCur_append (l m : List Amount) (c : String) :
    sumCur (l ++ m) c = sumCur l c + sumCur m c := by
  simp [sumCur, List.filter_append]

/-- Summing a currency over a cons. -/
theorem sumCur_cons (a : Amount) (l : List Amount) (c : String) :
    sumCur (a :: l) c = (if a.currency = c then a.number else 0) + sumCur l c := by
  by_cases h : a.currency = c <;> simp [sumCur, List.filter_cons, h]

/-- A currency not present in a list of amounts sums to zero. -/
theorem sumCur_of_not_mem (l : List Amount) (c : String)
    (h : ∀ a ∈ l, a.currency ≠ c) : sumCur l c = 0 := by
  unfold sumCur
  rw [List.filter_eq_nil.mpr]
  · rfl
  · intro a ha
    simp [h a ha]

/-- Summing a currency over the consolidation built from a duplicate-free
currency list picks out that currency's sum when it is listed. -/
theorem sumCur_consolidate_aux (l : List Amount) (cs : List String)
    (h : cs.Nodup) (c : String) :
    sumCur (cs.filterMap
        (fun x => if sumCur l x = 0 then none else some ⟨sumCur l x, x⟩)) c =
      if c ∈ cs then sumCur l c else 0 := by
  induction cs with
  | nil => simp [sumCur]
  | cons x cs ih =>
    rw [List.nodup_cons] at h
    by_cases hx : sumCur l x = 0
    · simp only [List.filterMap_cons, if_pos hx]
      rw [ih h.2]
      by_cases hcx : c = x
      · subst hcx
        rw [if_neg h.1, if_pos (List.mem_cons_self c cs), hx]
      · simp [List.mem_cons, hcx]
    · simp only [List.filterMap_cons, if_neg hx]
      rw [sumCur_cons, ih h.2]
      by_cases hcx : c = x
      · subst hcx
        rw [if_pos rfl, if_neg h.1, if_pos (List.mem_cons_self c cs)]
        ring
      · rw [if_neg (fun he => hcx he.symm)]
        simp [List.mem_cons, hcx]

/-- Consolidation preserves the per-currency sums of a list of amounts. -/
theorem sumCur_consolidate (l : List Amount) (c : String) :
    sumCur (consolidateAmounts l) c = sumCur l c := by
  unfold consolidateAmounts currenciesOf
  rw [sumCur_consolidate_aux l _ (List.nodup_dedup _) c]
  by_cases h : c ∈ (l.map Amount.currency).dedup
  · rw [if_pos h]
  · rw [if_neg h]
    symm
    apply sumCur_of_not_mem
    intro a ha hac
    exact h (List.mem_dedup.mpr (hac ▸ List.mem_map_of_mem Amount.currency ha))

/-- Negating every amount negates each per-currency sum. -/
theorem sumCur_map_neg (m : List Amount) (c : String) :
    sumCur (m.map (fun a => ⟨-a.number, a.currency⟩)) c = -sumCur m c := by
  induction m with
  | nil => simp [sumCur]
  | cons a m ih =>
    rw [List.map_cons, sumCur_cons, sumCur_cons, ih]
    by_cases h : a.currency = c <;> simp [h] <;> ring

/-- Appending the negated consolidation of a list of amounts yields an
exactly empty balance: every currency sums to zero. -/
theorem balEmpty_append_neg_consolidate (l : List Amount) :
    balEmpty
      (l ++ (consolidateAmounts l).map (fun a => ⟨-a.number, a.currency⟩)) =
      true := by
  unfold balEmpty
  rw [List.all_eq_true]
  intro c _
  rw [beq_iff_eq, sumCur_append, sumCur_map_neg, sumCur_consolidate]
  ring

/-- When the consolidation of a list of amounts is empty, the balance of
the list is exactly empty. -/
theorem balEmpty_of_consolidate_nil (l : List Amount)
    (h : consolidateAmounts l = []) : balEmpty l = true := by
  unfold balEmpty
  rw [List.all_eq_true]
  intro c _
  rw [beq_iff_eq]
  have hs := sumCur_consolidate l c
  rw [h] at hs
  simpa [sumCur] using hs.symm

/-- At-cost amounts distribute over stream append. -/
theorem atCostAmounts_append (xs ys : List Directive) :
    atCostAmounts (xs ++ ys) = atCostAmounts xs ++ atCostAmounts ys := by
  simp [atCostAmounts]

/-- The at-cost amount of a costless position is its units amount. -/
theorem atCostAmount_costless (c : String) (x : ℚ) :
    atCostAmount ⟨⟨c, none, none⟩, x⟩ = ⟨x, c⟩ := rfl

/-- The stream produced by the conversions pass has an exactly empty
at-cost balance whenever every entry of the incoming stream is dated
before the cutoff. -/
theorem conversions_balEmpty (xs : List Directive) (acct : Account)
    (ncur : String) (cut : Int) (h : ∀ x ∈ xs, x.date < cut) :
    balEmpty (atCostAmounts (conversions xs acct ncur (some cut))) = true := by
  unfold conversions
  have hf : xs.filter (fun e => decide (e.date < cut)) = xs :=
    List.filter_eq_self.mpr (fun a ha => decide_eq_true (h a ha))
  simp only [hf]
  by_cases hi : (consolidateAmounts (atCostAmounts xs)).isEmpty
  · simp only [hi, if_pos]
    exact balEmpty_of_consolidate_nil _ (List.isEmpty_iff.mp hi)
  · simp only [hi, Bool.false_eq_true, if_neg, ite_false]
    rw [atCostAmounts_append]
    have he : atCostAmounts [Directive.txn (cut - 1) "C" "Conversion"
        ((consolidateAmounts (atCostAmounts xs)).map (fun a =>
          ⟨acct, ⟨⟨a.currency, none, none⟩, -a.number⟩, some ⟨0, ncur⟩⟩))] =
        (consolidateAmounts (atCostAmounts xs)).map
          (fun a => ⟨-a.number, a.currency⟩) := by
      simp [atCostAmounts, Directive.postings, List.map_map]
      exact fun a _ => rfl
    rw [he]
    exact balEmpty_append_neg_consolidate _

/-- C1: for every directive stream and every window, the stream returned
by clamp has an exactly empty at-cost balance: the synthesized opening,
transfer and conversion transactions leave every currency summing to
zero, even when the input stream's balance is non-empty. -/
theorem C1_clamp_balance_empty (directives : List Directive)
    (begin_date end_date : Int) (types : AccountTypes)
    (conversion_currency : String) (earnings opening conv_account : Account) :
    balEmpty (atCostAmounts
      (clamp directives begin_date end_date types conversion_currency
        earnings opening conv_account).1) = true := by
  have h2 : (clamp directives begin_date end_date types conversion_currency
      earnings opening conv_account).1 =
      conversions
        (truncate
          (summarize
            (transfer_balances directives (some begin_date)
              (isIncomeExpense types) earnings)
            begin_date opening).1
          end_date)
        conv_account conversion_currency (some end_date) := by
    show (let d1 := transfer_balances directives (some begin_date) (isIncomeExpense types) earnings; let res := summarize d1 begin_date opening; let d3 := truncate res.1 end_date; (conversions d3 conv_account conversion_currency (some end_date), res.2)).1 = _
    simp only []
  rw [h2]
  apply conversions_balEmpty
  intro x hx
  have := List.mem_takeWhile_imp hx
  exact of_decide_eq_true this

/-- Unfolding of the component loop on a cons cell. -/
theorem processComponents_cons (n : ℚ) (st : CostState) (e : List Char)
    (es : List (List Char)) :
    processComponents n st (e :: es) =
      match processComponent n st e with
      | .error err => .error err
      | .ok st2 => processComponents n st2 es := rfl

/-- The component loop distributes over list append: the tail runs from
the state the head produced, unless the head already failed. -/
theorem processComponents_append (n : ℚ) (st : CostState)
    (l1 l2 : List (List Char)) :
    processComponents n st (l1 ++ l2) =
      match processComponents n st l1 with
      | .error e => .error e
      | .ok st2 => processComponents n st2 l2 := by
  induction l1 generalizing st with
  | nil => rfl
  | cons e es ih =>
    rw [List.cons_append, processComponents_cons, processComponents_cons]
    cases hp : processComponent n st e with
    | error err => rfl
    | ok st2 => exact ih st2

/-- C4 counterexample: a compact string whose cost block contains both a
per-unit and a total number but whose unit number is zero makes
from_string fail with the division error instead of returning a Position,
refuting the unconditional claim. -/
theorem C4_counterexample :
    parseOuter "0 HOOL \x7b3.00 # 50.00 USD\x7d" =
      some (0, "HOOL", some (String.data "3.00 # 50.00 USD")) ∧
    matchCompound (String.data "3.00 # 50.00 USD") = some (3, some 50, "USD") ∧
    from_string "0 HOOL \x7b3.00 # 50.00 USD\x7d" =
      .error FromStringError.divisionByZero := by
  refine ⟨?_, ?_, ?_⟩ <;> with_unfolding_all rfl

/-- Processing a component that does not match the compound cost form
never changes the accumulated cost: dates set only the lot date, labels
and merge markers are dropped. -/
theorem processComponent_cost_of_no_compound (n : ℚ) (st st2 : CostState)
    (e : List Char) (he : matchCompound e = none)
    (hp : processComponent n st e = .ok st2) : st2.cost = st.cost := by
  unfold processComponent at hp
  rw [he] at hp
  cases hd : matchDateForm e with
  | some v =>
    obtain ⟨y, m, d⟩ := v
    rw [hd] at hp
    by_cases hv : validDate y m d
    · simp only [hv, ite_true, if_pos] at hp
      cases hp
      rfl
    · simp [hv] at hp
  | none =>
    rw [hd] at hp
    by_cases hl : matchLabel e
    · simp only [hl, ite_true, if_pos] at hp
      cases hp
      rfl
    · by_cases hm : e = ['*']
      · simp only [hl, Bool.false_eq_true, if_neg, ite_false, hm, ite_true,
          if_pos] at hp
        cases hp
        rfl
      · simp [hl, hm] at hp

/-- The component loop preserves the accumulated cost when no component
matches the compound cost form. -/
theorem processComponents_cost_of_no_compound (n : ℚ)
    (comps : List (List Char)) :
    ∀ (st stf : CostState), (∀ e ∈ comps, matchCompound e = none) →
      processComponents n st comps = .ok stf → stf.cost = st.cost := by
  induction comps with
  | nil =>
    intro st stf _ hp
    cases hp
    rfl
  | cons e es ih =>
    intro st stf h hp
    rw [processComponents_cons] at hp
    cases hq : processComponent n st e with
    | error err =>
      rw [hq] at hp
      simp at hp
    | ok st2 =>
      rw [hq] at hp
      change processComponents n st2 es = .ok stf at hp
      have h1 := processComponent_cost_of_no_compound n st st2 e
        (h e (List.mem_cons_self e es)) hq
      have h2 := ih st2 stf (fun x hx => h x (List.mem_cons_of_mem e hx)) hp
      rw [h2, h1]

/-- C4 amended: for a compact string whose cost block contains a component
carrying both a per-unit and a total cost number — at any position, with
the other components free of cost specs, as the spec's at-most-one-cost
grammar prescribes — and whose unit number is non-zero, from_string
returns a Position whose lot cost is an amount in the cost currency with
number (number * per_unit + total) / number, computed in exact arithmetic
(when the total is zero the source skips the recomputation, and the
formula still holds). -/
theorem C4_total_cost_formula (s : String) (n per tot : ℚ) (cur ccur : String)
    (content b : List Char) (comps1 comps2 : List (List Char))
    (st1 stf : CostState)
    (h1 : parseOuter s = some (n, cur, some content))
    (h2 : content.isEmpty = false)
    (h3 : splitComponents content = comps1 ++ b :: comps2)
    (h4 : matchCompound b = some (per, some tot, ccur))
    (h5 : processComponents n ⟨none, none⟩ comps1 = .ok st1)
    (h6 : ∀ e ∈ comps2, matchCompound e = none)
    (h7 : processComponents n
      ⟨some ⟨(n * per + tot) / n, ccur⟩, st1.lot_date⟩ comps2 = .ok stf)
    (h8 : n ≠ 0) :
    from_string s =
      .ok ⟨⟨cur, some ⟨(n * per + tot) / n, ccur⟩, stf.lot_date⟩, n⟩ := by
  have hcost : stf.cost = some ⟨(n * per + tot) / n, ccur⟩ :=
    processComponents_cost_of_no_compound n comps2 _ stf h6 h7
  have hstep : processComponent n st1 b =
      .ok ⟨some ⟨(n * per + tot) / n, ccur⟩, st1.lot_date⟩ := by
    unfold processComponent
    rw [h4]
    simp only [Option.getD_some]
    by_cases ht : tot = 0
    · subst ht
      simp only [ne_eq, not_true_eq_false, ite_false, if_neg]
      have hper : (n * per + 0) / n = per := by
        rw [add_zero, mul_comm, mul_div_assoc, div_self h8, mul_one]
      rw [hper]
    · simp only [ne_eq, ht, not_false_eq_true, if_pos, h8, ite_false, if_neg,
        ite_true]
  have hall : processComponents n ⟨none, none⟩ (splitComponents content) =
      .ok stf := by
    rw [h3, processComponents_append n ⟨none, none⟩ comps1 (b :: comps2), h5]
    show processComponents n st1 (b :: comps2) = .ok stf
    rw [processComponents_cons, hstep]
    exact h7
  unfold from_string
  rw [h1]
  simp only [h2, Bool.false_eq_true, if_neg, ite_false]
  rw [hall]
  show (Except.ok (⟨⟨cur, stf.cost, stf.lot_date⟩, n⟩ : Position) :
    Except FromStringError Position) = _
  rw [hcost]

/-- C4 witness: a cost block with both numbers followed by a lot date;
the effective per-unit cost is (2 * 1 + 4) / 2 = 3. -/
theorem C4_witness :
    from_string "2 HOOL \x7b1.00 # 4.00 USD, 2012-01-01\x7d" =
      .ok ⟨⟨"HOOL", some ⟨(2 * 1 + 4) / 2, "USD"⟩,
        some ⟨2012, 1, 1⟩⟩, 2⟩ :=
  C4_total_cost_formula "2 HOOL \x7b1.00 # 4.00 USD, 2012-01-01\x7d" 2 1 4
    "HOOL" "USD" (String.data "1.00 # 4.00 USD, 2012-01-01")
    (String.data "1.00 # 4.00 USD") [] [String.data "2012-01-01"]
    ⟨none, none⟩ ⟨some ⟨(2 * 1 + 4) / 2, "USD"⟩, some ⟨2012, 1, 1⟩⟩
    (by with_unfolding_all rfl) (by with_unfolding_all rfl)
    (by with_unfolding_all rfl) (by with_unfolding_all rfl)
    (by with_unfolding_all rfl)
    (by
      intro e he
      rw [List.mem_singleton] at he
      subst he
      with_unfolding_all rfl)
    (by with_unfolding_all rfl) (by norm_num)

/-- C5 counterexample: the string 1 USD with cost block 2012-13-01 has a
component matching the recognized syntactic date form, so the claim says
no format error is raised, but the datetime.date constructor rejects
month 13 with a ValueError, so from_string does raise a format error. -/
theorem C5_counterexample :
    ¬ (isFormatError (from_string "1 USD \x7b2012-13-01\x7d") =
        !c5SpecOk "1 USD \x7b2012-13-01\x7d") := by
  with_unfolding_all decide

/-- Processing one component fails exactly as classified by
componentIssue, independently of the accumulated cost state. -/
theorem errClass_processComponent (n : ℚ) (st : CostState)
    (expr : List Char) :
    errClass (processComponent n st expr) = componentIssue n expr := by
  unfold processComponent componentIssue
  cases hc : matchCompound expr with
  | some v =>
    obtain ⟨per, totOpt, ccur⟩ := v
    by_cases ht : totOpt.getD 0 ≠ 0
    · by_cases hn : n = 0
      · simp [ht, hn, errClass]
      · simp [ht, hn, errClass]
    · simp [ht, errClass]
  | none =>
    cases hd : matchDateForm expr with
    | some v =>
      obtain ⟨y, m, d⟩ := v
      by_cases hv : validDate y m d <;> simp [hv, errClass]
    | none =>
      by_cases hl : matchLabel expr
      · simp [hl, errClass]
      · by_cases hm : expr = ['*'] <;> simp [hl, hm, errClass]

/-- The component loop fails exactly on the first component with an issue,
with that issue's classification changed by no later component. -/
theorem errClass_processComponents (n : ℚ) (comps : List (List Char))
    (st : CostState) :
    errClass (processComponents n st comps) =
      comps.findSome? (componentIssue n) := by
  induction comps generalizing st with
  | nil => rfl
  | cons e es ih =>
    unfold processComponents
    rw [List.findSome?_cons]
    cases hp : processComponent n st e with
    | error err =>
      have h1 := errClass_processComponent n st e
      rw [hp] at h1
      rw [← h1]
      cases err <;> rfl
    | ok st2 =>
      have h1 := errClass_processComponent n st e
      rw [hp] at h1
      rw [← h1]
      exact ih st2

/-- An error of from_string is a format error exactly when its
classification is the format kind. -/
theorem isFormatError_iff_class (r : Except FromStringError Position) :
    isFormatError r = (errClass r == some IssueKind.fmt) := by
  cases r with
  | ok p => rfl
  | error e => cases e <;> rfl

/-- C5 amended: from_string raises a format error (a Python ValueError)
exactly when the overall pattern does not match, or the first problematic
cost component, scanned in order, is problematic for a format reason:
matching none of the recognized forms, or matching the date form with
calendar-invalid values; a component whose cost spec carries a nonzero
total while the unit number is zero instead aborts with the arithmetic
division error of C10 before later components are examined. -/
theorem C5_format_error_characterization (s : String) :
    isFormatError (from_string s) = c5AmendedFormatError s := by
  unfold from_string c5AmendedFormatError
  cases ho : parseOuter s with
  | none => rfl
  | some v =>
    obtain ⟨n, cur, blockOpt⟩ := v
    cases blockOpt with
    | none => rfl
    | some content =>
      by_cases hc : content.isEmpty
      · simp only [hc, if_pos, ite_true]
        rfl
      · simp only [hc, Bool.false_eq_true, if_neg, ite_false]
        have h := errClass_processComponents n (splitComponents content)
          ⟨none, none⟩
        cases hp : processComponents n ⟨none, none⟩ (splitComponents content) with
        | error e =>
          rw [hp] at h
          rw [← h]
          cases e <;> rfl
        | ok st =>
          rw [hp] at h
          rw [← h]
          rfl

end Beancount
